import Mathlib

/-!
Verification of the go-to-rust translator core
(`aws_lambda_events_codegen/go_to_rust/src/lib.rs`).

The data model and the operations below are a shallow embedding of the
Rust source: the `GoType` AST, the recursive type translation
`translate_go_type_to_rust_type` (here `translateGo`), the per-field
derivation performed by the body of the field loop of `parse_struct`
(here `processField`), the per-struct aggregation (here `processFields`),
the tag / pointer merging of `parse_struct_field` (here `mkFieldDef`),
and the small parsing helpers that can fail
(`parse_go_type_primitive`, `parse_go_package_ident`, `parse_go_type_map`).

Rust's `HashSet<String>` of required libraries is modelled as
`Finset String` (an order-independent set, as in the source, where the
order of a `HashSet` iteration is unspecified and the code sorts before
rendering).  The `panic` / `unimplemented!` aborts of the fallible
parsers are modelled as `Except.error` carrying the panic message.
-/

/-- The source-dialect type AST, a direct transcription of `enum GoType`. -/
inductive GoType
  | StringType
  | IntType
  | UnsignedIntType
  | FloatType
  | BoolType
  | ByteType
  | UserDefined (s : String)
  | ArrayType (t : GoType)
  | MapType (k : GoType) (v : GoType)
  | InterfaceType
  | PointerType (t : GoType)
  | TimeType
  | TimestampMillisecondsType
  | TimestampSecondsType
  | JsonRawType
deriving DecidableEq, Repr

/-- Transcription of `struct RustGeneric`: one generic-parameter spec. -/
structure RustGeneric where
  value : String
  default : Option String
  bounds : List String
deriving DecidableEq, Repr

/-- Transcription of `struct RustType`.  The `libraries` hash set is
modelled as a `Finset`. -/
structure RustType where
  annotations : List String
  libraries : Finset String
  value : String
  generics : List RustGeneric
deriving DecidableEq

/-- Transcription of `struct FieldDef`. -/
structure FieldDef where
  name : String
  json_name : Option String
  comments : List String
  omit_empty : Bool
  go_type : GoType
  embedded : Bool
deriving DecidableEq, Repr

/-- Transcription of `struct JsonMapping`. -/
structure JsonMapping where
  name : String
  comment : Option String
  omit_empty : Bool
deriving DecidableEq, Repr

/-- Decimal digit to character, modelling the decimal `Display`
rendering used by the source's format strings. -/
def digitChar (d : Nat) : Char :=
  match d with
  | 0 => '0' | 1 => '1' | 2 => '2' | 3 => '3' | 4 => '4'
  | 5 => '5' | 6 => '6' | 7 => '7' | 8 => '8' | 9 => '9'
  | _ => '*'

/-- Decimal rendering of a counter value, modelling the `Display`
formatting of a `usize` in the source's format strings. -/
def natRepr (n : Nat) : String :=
  if n = 0 then "0" else ⟨((Nat.digits 10 n).map digitChar).reverse⟩

/-- Transcription of `fn mangle`: the fixed keyword-escaping table. -/
def mangle (s : String) : String :=
  match s with
  | "ref" => "ref_"
  | "type" => "type_"
  | _ => s

/-- Word segmentation used by the case-conversion model: a word break
happens at a non-alphanumeric character (which is dropped) or at a
lowercase-to-uppercase boundary.  This models the word segmentation of
the external `heck` crate on the ASCII identifiers of this grammar. -/
def wordsAux : List Char → List Char → List (List Char)
  | [], acc => if acc.isEmpty then [] else [acc.reverse]
  | c :: rest, acc =>
    if !c.isAlphanum then
      (if acc.isEmpty then [] else [acc.reverse]) ++ wordsAux rest []
    else
      match acc with
      | p :: _ =>
        if p.isLower && c.isUpper then acc.reverse :: wordsAux rest [c]
        else wordsAux rest (c :: acc)
      | [] => wordsAux rest [c]

/-- Identifier word list for the case-conversion model. -/
def identWords (s : String) : List (List Char) :=
  wordsAux s.data []

/-- Model of `heck::SnakeCase` (`to_snake_case`): lowercase the words
and join them with underscores. -/
def toSnakeCase (s : String) : String :=
  ⟨(((identWords s).map (fun w => w.map Char.toLower)).intersperse ['_']).flatten⟩

/-- Model of `heck::CamelCase` (`to_camel_case`): capitalize each word
and concatenate. -/
def toCamelCase (s : String) : String :=
  ⟨((identWords s).map (fun w =>
      match w with
      | [] => []
      | c :: r => c.toUpper :: r.map Char.toLower)).flatten⟩

/-- List-level matcher for the anchored regular expression
`^HashMap<.+>$` of `parse_struct`: the text starts with `HashMap<`,
ends with `>`, and has at least one character in between.  (No value
produced by the translator contains a line break, so the
any-character-except-newline subtlety of `.` is immaterial.) -/
def hashmapMatchL (l : List Char) : Bool :=
  decide (l.take 8 = ['H', 'a', 's', 'h', 'M', 'a', 'p', '<']) &&
    (decide (10 ≤ l.length) && (l.getLast? == some '>'))

/-- String-level matcher for the `HASHMAP_RE` regular expression. -/
def hashmapMatch (s : String) : Bool :=
  hashmapMatchL s.data

/-- Whether `needle` occurs as a contiguous substring of `hay`. -/
def strContains (hay needle : String) : Bool :=
  (List.range (hay.data.length + 1)).any (fun i => needle.data.isPrefixOf (hay.data.drop i))

/-- Transcription of `fn make_rust_type_with_no_libraries`. -/
def make_rust_type_with_no_libraries (value : String) : RustType :=
  { annotations := [], value := value, generics := [], libraries := ∅ }

/-- Transcription of `fn translate_go_type_to_rust_type`.  The
`Option<&mut usize>` generic counter is modelled by explicit state
passing: the function returns the translated type together with the
final state of the optional counter (`none` exactly when no counter was
in scope, in which case the caller's counter is untouched). -/
def translateGo : GoType → Option Nat → RustType × Option Nat
  | .StringType, c => (make_rust_type_with_no_libraries "String", c)
  | .BoolType, c => (make_rust_type_with_no_libraries "bool", c)
  | .ByteType, c => (make_rust_type_with_no_libraries "u8", c)
  | .IntType, c => (make_rust_type_with_no_libraries "i64", c)
  | .UnsignedIntType, c => (make_rust_type_with_no_libraries "u64", c)
  | .FloatType, c => (make_rust_type_with_no_libraries "f64", c)
  | .UserDefined x, c => (make_rust_type_with_no_libraries (toCamelCase x), c)
  | .ArrayType x, c =>
      let p := translateGo x c
      let i := p.1
      if i.value = "u8" then
        ({ annotations := i.annotations,
           value := "Base64Data",
           generics := i.generics,
           libraries := insert "super::super::encodings::Base64Data" i.libraries }, p.2)
      else
        ({ annotations := i.annotations,
           value := "Vec<" ++ (i.value ++ ">"),
           generics := i.generics,
           libraries := i.libraries }, p.2)
  | .PointerType v, c =>
      let p := translateGo v c
      ({ annotations := p.1.annotations,
         value := "Option<" ++ (p.1.value ++ ">"),
         generics := p.1.generics,
         libraries := p.1.libraries }, p.2)
  | .MapType k v, c =>
      let kp := translateGo k (some (c.getD 0))
      let vp := translateGo v kp.2
      ({ value := "HashMap<" ++ (kp.1.value ++ (", " ++ (vp.1.value ++ ">"))),
         annotations := kp.1.annotations ++ vp.1.annotations,
         generics := kp.1.generics ++ vp.1.generics,
         libraries := insert "std::collections::HashMap" (kp.1.libraries ∪ vp.1.libraries) },
       match c with
       | some _ => vp.2
       | none => none)
  | .InterfaceType, c => interfaceTranslation c
  | .JsonRawType, c => interfaceTranslation c
  | .TimestampSecondsType, c =>
      ({ annotations := [],
         value := "SecondTimestamp",
         generics := [],
         libraries := {"super::super::encodings::SecondTimestamp"} }, c)
  | .TimestampMillisecondsType, c =>
      ({ annotations := [],
         value := "MillisecondTimestamp",
         generics := [],
         libraries := {"super::super::encodings::MillisecondTimestamp"} }, c)
  | .TimeType, c =>
      ({ annotations := [],
         value := "DateTime<Utc>",
         generics := [],
         libraries := insert "chrono::DateTime" {"chrono::Utc"} }, c)

where
  /-- The shared `GoType::InterfaceType | GoType::JsonRawType` arm. -/
  interfaceTranslation : Option Nat → RustType × Option Nat
  | some counter =>
      let next := counter + 1
      let next_generic := "T" ++ natRepr next
      ({ annotations := ["#[serde(bound=\"\")]"],
         value := next_generic,
         generics := [{ value := next_generic,
                        default := some "Value",
                        bounds := ["DeserializeOwned", "Serialize"] }],
         libraries := insert "serde_json::Value"
           (insert "serde::de::DeserializeOwned" {"serde::ser::Serialize"}) },
       some next)
  | none =>
      ({ annotations := [],
         value := "Value",
         generics := [],
         libraries := {"serde_json::Value"} }, none)

/-- The tag / pointer merging of `parse_struct_field` (its tail, after
the syntax pairs have been walked): the final `omit_empty` flag is the
tag's flag, forced to `true` for a pointer-qualified field, and a tag's
inline comment is appended to the doc comments with a blank separator
line when both are present. -/
def mkFieldDef (name : String) (json : Option JsonMapping) (comments : List String)
    (is_pointer : Bool) (embedded : Bool) (go_type : GoType) : FieldDef :=
  { name := name,
    json_name := json.map (fun j => j.name),
    comments :=
      match json with
      | some j =>
        match j.comment with
        | some ic => if comments.isEmpty then [ic] else comments ++ ["", ic]
        | none => comments
      | none => comments,
    omit_empty := (match json with
      | some j => j.omit_empty
      | none => false) || is_pointer,
    go_type := go_type,
    embedded := embedded }

/-- One field as pushed into the emitted struct: identifier, rendered
type, attached attribute annotations, doc lines. -/
structure EmittedField where
  name : String
  ty : String
  annotations : List String
  doc : List String
deriving DecidableEq, Repr

/-- The result of processing one field inside `parse_struct`'s loop. -/
structure FieldOut where
  emitted : EmittedField
  libraries : Finset String
  generics : List RustGeneric
  counter : Nat
deriving DecidableEq

/-- The two override annotations attached to a plain-string field. -/
def deserStringAnns : List String :=
  ["#[serde(deserialize_with = \"deserialize_lambda_string\")]", "#[serde(default)]"]

/-- The two override annotations attached to a keyed-collection field. -/
def deserMapAnns : List String :=
  ["#[serde(deserialize_with = \"deserialize_lambda_map\")]", "#[serde(default)]"]

/-- The rename annotation carrying an original serialized name. -/
def renameAnn (r : String) : String :=
  "#[serde(rename = \"" ++ (r ++ "\")]")

/-- The rename annotations pushed for a field (`parse_struct`,
`if rename != member_name`). -/
def renameAnnotations (f : FieldDef) : List String :=
  match f.json_name with
  | some rename =>
      if rename ≠ mangle (toSnakeCase f.name) then [renameAnn rename] else []
  | none => []

/-- The flatten annotations pushed for an embedded field. -/
def flattenAnnotations (f : FieldDef) : List String :=
  if f.embedded then ["#[serde(flatten)]"] else []

/-- The rendered field type after the optional-wrapping step of
`parse_struct` (omit-empty fields are wrapped, except keyed-collection
types). -/
def rustTypeOf (f : FieldDef) (c : Nat) : String :=
  let v := (translateGo f.go_type (some c)).1.value
  if f.omit_empty && !(hashmapMatch v) then "Option<" ++ (v ++ ">") else v

/-- The hard-coded override annotations of `parse_struct` (string
null-coalescing, map null-to-empty), keyed on the wrapped type text. -/
def overrideAnnotations (f : FieldDef) (c : Nat) : List String :=
  if rustTypeOf f c = "String" then deserStringAnns
  else if hashmapMatch (rustTypeOf f c) then deserMapAnns
  else []

/-- The body of the field loop of `parse_struct` for one `FieldDef`,
given the current value of the struct-scoped generic counter: mangles
the snake-cased identifier, translates the type, wraps omit-empty
non-map types in `Option`, pushes rename / flatten annotations, applies
the string and map overrides (also inserting the `custom_serde::*`
library), and merges the override annotations (set first on the field)
with the accumulated translator annotations (appended after). -/
def processField (f : FieldDef) (c : Nat) : FieldOut :=
  let member_name := mangle (toSnakeCase f.name)
  let rd := (translateGo f.go_type (some c)).1
  let c' := ((translateGo f.go_type (some c)).2).getD 0
  let rust_type :=
    if f.omit_empty && !(hashmapMatch rd.value) then "Option<" ++ (rd.value ++ ">")
    else rd.value
  let pushedAnnotations := rd.annotations ++ renameAnnotations f ++ flattenAnnotations f
  if rust_type = "String" then
    { emitted := { name := member_name, ty := "Option<String>",
                   annotations := deserStringAnns ++ pushedAnnotations, doc := f.comments },
      libraries := insert "custom_serde::*" rd.libraries,
      generics := rd.generics,
      counter := c' }
  else if hashmapMatch rust_type then
    { emitted := { name := member_name, ty := rust_type,
                   annotations := deserMapAnns ++ pushedAnnotations, doc := f.comments },
      libraries := insert "custom_serde::*" rd.libraries,
      generics := rd.generics,
      counter := c' }
  else
    { emitted := { name := member_name, ty := rust_type,
                   annotations := pushedAnnotations, doc := f.comments },
      libraries := rd.libraries,
      generics := rd.generics,
      counter := c' }

/-- The per-struct aggregate built by `parse_struct`'s field loop. -/
structure StructOut where
  fields : List EmittedField
  libraries : Finset String
  generics : List RustGeneric
  counter : Nat
deriving DecidableEq

/-- The field loop of `parse_struct`: the generic counter and the
library set are threaded through the fields in declaration order. -/
def processFields : List FieldDef → Nat → StructOut
  | [], c => { fields := [], libraries := ∅, generics := [], counter := c }
  | f :: fs, c =>
      let fo := processField f c
      let so := processFields fs fo.counter
      { fields := fo.emitted :: so.fields,
        libraries := fo.libraries ∪ so.libraries,
        generics := fo.generics ++ so.generics,
        counter := so.counter }

/-- The aggregated library set of one struct (the counter starts at 0
for every struct, as in `parse_struct`). -/
def structLibraries (fs : List FieldDef) : Finset String :=
  (processFields fs 0).libraries

/-- The struct-level generic-parameter specs collected from all fields
of one struct, in declaration order. -/
def structGenerics (fs : List FieldDef) : List RustGeneric :=
  (processFields fs 0).generics

/-- The placeholder names of the struct-level generic parameters. -/
def structGenericNames (fs : List FieldDef) : List String :=
  (structGenerics fs).map (fun g => g.value)

/-- Model of `add_sorted_imports`: the library hash set is rendered as
a lexicographically sorted list. -/
def renderImports (libs : Finset String) : List String :=
  libs.sort (· ≤ ·)

/-- Transcription of `fn parse_go_type_primitive`; the
`unimplemented!` abort is modelled as an error carrying the panic
message. -/
def parse_go_type_primitive (t : String) : Except String GoType :=
  if t = "string" then .ok .StringType
  else if t = "int" ∨ t = "int32" ∨ t = "int64" then .ok .IntType
  else if t = "uint" ∨ t = "uint32" ∨ t = "uint64" then .ok .UnsignedIntType
  else if t = "float" ∨ t = "float32" ∨ t = "float64" then .ok .FloatType
  else if t = "bool" then .ok .BoolType
  else if t = "byte" then .ok .ByteType
  else .error "missing go type primitive"

/-- The primitive spellings accepted by `parse_go_type_primitive`. -/
def recognizedPrimitives : List String :=
  ["string", "int", "int32", "int64", "uint", "uint32", "uint64",
   "float", "float32", "float64", "bool", "byte"]

/-- Transcription of `fn parse_go_package_ident`. -/
def parse_go_package_ident (t : String) : Except String GoType :=
  if t = "time.Time" then .ok .TimeType
  else if t = "json.RawMessage" then .ok .JsonRawType
  else .error "missing go package ident mapping"

/-- Transcription of `fn parse_go_ident`. -/
def parse_go_ident (t : String) : Except String GoType :=
  if t = "MilliSecondsEpochTime" then .ok .TimestampMillisecondsType
  else if t = "SecondsEpochTime" then .ok .TimestampSecondsType
  else .ok (.UserDefined t)

/-- Transcription of `fn parse_go_type_map` over the already-extracted
key text and value parse: the key text is parsed with
`parse_go_type_primitive`, so a non-primitive key aborts with that
parser's message. -/
def parse_go_type_map (keyText : String) (valueParse : Except String GoType) :
    Except String GoType := do
  let k ← parse_go_type_primitive keyText
  let v ← valueParse
  pure (.MapType k v)

/-! ### Helper lemmas about the decimal rendering -/

theorem digitChar_inj (d e : Nat) (hd : d < 10) (he : e < 10)
    (h : digitChar d = digitChar e) : d = e := by
  interval_cases d <;> interval_cases e <;> revert h <;> decide

theorem map_digitChar_inj : ∀ (l1 l2 : List Nat),
    (∀ d ∈ l1, d < 10) → (∀ d ∈ l2, d < 10) →
    l1.map digitChar = l2.map digitChar → l1 = l2
  | [], [], _, _, _ => rfl
  | [], _ :: _, _, _, h => by simp at h
  | _ :: _, [], _, _, h => by simp at h
  | a :: l1, b :: l2, h1, h2, h => by
    simp only [List.map_cons, List.cons.injEq] at h
    have ha : a = b :=
      digitChar_inj a b (h1 a (by simp)) (h2 b (by simp)) h.1
    have : l1 = l2 :=
      map_digitChar_inj l1 l2 (fun d hd => h1 d (by simp [hd]))
        (fun d hd => h2 d (by simp [hd])) h.2
    rw [ha, this]

theorem natRepr_data_ne_zero (n : Nat) (h : n ≠ 0) :
    (natRepr n).data = ((Nat.digits 10 n).map digitChar).reverse := by
  unfold natRepr
  rw [if_neg h]

theorem natRepr_ne_zero_str (b : Nat) (hb : b ≠ 0) (h : natRepr b = "0") : False := by
  have hdat := congrArg String.data h
  rw [natRepr_data_ne_zero b hb] at hdat
  have e0 : ("0" : String).data = ['0'] := rfl
  rw [e0] at hdat
  have hlen := congrArg List.length hdat
  simp only [List.length_reverse, List.length_map, List.length_cons,
    List.length_nil] at hlen
  obtain ⟨d, hd⟩ := List.length_eq_one.mp hlen
  rw [hd] at hdat
  simp only [List.map_cons, List.map_nil, List.reverse_cons, List.reverse_nil,
    List.nil_append, List.cons.injEq, and_true] at hdat
  have hd10 : d < 10 := Nat.digits_lt_base (by norm_num) (by rw [hd]; simp)
  have hd0 : d = 0 := by
    interval_cases d <;> revert hdat <;> decide
  have hodb := Nat.ofDigits_digits 10 b
  rw [hd, hd0] at hodb
  simp [Nat.ofDigits] at hodb
  exact hb hodb.symm

theorem natRepr_inj : Function.Injective natRepr := by
  intro a b h
  have h0 : natRepr 0 = "0" := rfl
  by_cases ha : a = 0 <;> by_cases hb : b = 0
  · omega
  · subst ha
    exact (natRepr_ne_zero_str b hb (h.symm.trans h0)).elim
  · subst hb
    exact (natRepr_ne_zero_str a ha (h.trans h0)).elim
  · have hdat := congrArg String.data h
    rw [natRepr_data_ne_zero a ha, natRepr_data_ne_zero b hb] at hdat
    have hmap := List.reverse_injective hdat
    have hdig := map_digitChar_inj (Nat.digits 10 a) (Nat.digits 10 b)
      (fun d hd => Nat.digits_lt_base (by norm_num) hd)
      (fun d hd => Nat.digits_lt_base (by norm_num) hd) hmap
    exact Nat.digits.injective 10 hdig

/-! ### Helper lemmas about string shapes -/

theorem head?_data_append (p s : String) (hp : p.data ≠ []) :
    (p ++ s).data.head? = p.data.head? := by
  rw [String.data_append]
  cases h : p.data with
  | nil => exact absurd h hp
  | cons a l => simp

theorem append_ne (p s t : String) (hp : p.data ≠ [])
    (h : p.data.head? ≠ t.data.head?) : p ++ s ≠ t := by
  intro he
  apply h
  rw [← head?_data_append p s hp, he]

theorem append_left_cancel_str (p a b : String) (h : p ++ a = p ++ b) : a = b := by
  have hd := congrArg String.data h
  rw [String.data_append, String.data_append] at hd
  exact String.ext (List.append_cancel_left hd)

theorem hashmapMatch_prefixed (c : Char) (p s : String)
    (hp : p.data.head? = some c) (hc : c ≠ 'H') : hashmapMatch (p ++ s) = false := by
  unfold hashmapMatch hashmapMatchL
  rw [String.data_append]
  cases h : p.data with
  | nil => rw [h] at hp; simp at hp
  | cons a l =>
    rw [h] at hp
    simp only [List.head?_cons, Option.some.injEq] at hp
    subst hp
    simp [List.take_succ_cons, hc]

theorem hashmapMatch_map_value (k v : String) :
    hashmapMatch ("HashMap<" ++ (k ++ (", " ++ (v ++ ">")))) = true := by
  unfold hashmapMatch hashmapMatchL
  rw [String.data_append, String.data_append, String.data_append, String.data_append]
  have e1 : ("HashMap<" : String).data = ['H', 'a', 's', 'h', 'M', 'a', 'p', '<'] := rfl
  have e2 : (", " : String).data = [',', ' '] := rfl
  have e3 : (">" : String).data = ['>'] := rfl
  rw [e1, e2, e3]
  simp only [Bool.and_eq_true, decide_eq_true_eq, beq_iff_eq]
  refine ⟨?_, ?_, ?_⟩
  · exact List.take_left' rfl
  · simp only [List.length_append, List.length_cons, List.length_nil]
    omega
  · rw [show ['H', 'a', 's', 'h', 'M', 'a', 'p', '<'] ++ (k.data ++ ([',', ' '] ++ (v.data ++ ['>'])))
        = (['H', 'a', 's', 'h', 'M', 'a', 'p', '<'] ++ k.data ++ ([',', ' '] ++ v.data)) ++ ['>']
        from by simp [List.append_assoc]]
    exact List.getLast?_concat _

/-! ### The generic counter: someness, increments, placeholder names -/

theorem translate_generics (t : GoType) : ∀ c : Nat,
    (translateGo t (some c)).2 = some (c + ((translateGo t (some c)).1.generics).length) ∧
    ((translateGo t (some c)).1.generics).map (fun g => g.value) =
      (List.range ((translateGo t (some c)).1.generics).length).map
        (fun i => "T" ++ natRepr (c + i + 1)) := by
  induction t with
  | StringType => intro c; simp [translateGo, make_rust_type_with_no_libraries]
  | IntType => intro c; simp [translateGo, make_rust_type_with_no_libraries]
  | UnsignedIntType => intro c; simp [translateGo, make_rust_type_with_no_libraries]
  | FloatType => intro c; simp [translateGo, make_rust_type_with_no_libraries]
  | BoolType => intro c; simp [translateGo, make_rust_type_with_no_libraries]
  | ByteType => intro c; simp [translateGo, make_rust_type_with_no_libraries]
  | UserDefined x => intro c; simp [translateGo, make_rust_type_with_no_libraries]
  | TimeType => intro c; simp [translateGo]
  | TimestampMillisecondsType => intro c; simp [translateGo]
  | TimestampSecondsType => intro c; simp [translateGo]
  | InterfaceType =>
      intro c
      simp [translateGo, translateGo.interfaceTranslation, show List.range 1 = [0] from rfl]
  | JsonRawType =>
      intro c
      simp [translateGo, translateGo.interfaceTranslation, show List.range 1 = [0] from rfl]
  | ArrayType x ih =>
      intro c
      obtain ⟨h1, h2⟩ := ih c
      simp only [translateGo]
      by_cases hu : (translateGo x (some c)).1.value = "u8"
      · simp only [hu, if_pos rfl]
        exact ⟨h1, h2⟩
      · simp only [if_neg hu]
        exact ⟨h1, h2⟩
  | PointerType v ih =>
      intro c
      obtain ⟨h1, h2⟩ := ih c
      simp only [translateGo]
      exact ⟨h1, h2⟩
  | MapType k v ihk ihv =>
      intro c
      obtain ⟨hk1, hk2⟩ := ihk c
      obtain ⟨hv1, hv2⟩ := ihv (c + ((translateGo k (some c)).1.generics).length)
      simp only [translateGo, Option.getD_some]
      rw [hk1]
      constructor
      · rw [hv1]
        simp only [List.length_append, Option.some.injEq]
        omega
      · simp only [List.map_append, List.length_append]
        rw [hk2, hv2]
        rw [List.range_add ((translateGo k (some c)).1.generics).length
          ((translateGo v (some (c + ((translateGo k (some c)).1.generics).length))).1.generics).length]
        rw [List.map_append, List.map_map]
        congr 1
        apply List.map_congr_left
        intro i _
        simp only [Function.comp_apply]
        congr 2
        omega

theorem translate_counter_some (t : GoType) (c : Nat) :
    (translateGo t (some c)).2 = some (c + ((translateGo t (some c)).1.generics).length) :=
  (translate_generics t c).1

/-! ### Counter-independence of the parts of a translation that decide
library insertion and the string / map overrides -/

theorem translate_parts (t : GoType) : ∀ c c' : Nat,
    (translateGo t (some c)).1.libraries = (translateGo t (some c')).1.libraries ∧
    ((translateGo t (some c)).1.value = "String" ↔ (translateGo t (some c')).1.value = "String") ∧
    ((translateGo t (some c)).1.value = "u8" ↔ (translateGo t (some c')).1.value = "u8") ∧
    hashmapMatch (translateGo t (some c)).1.value
      = hashmapMatch (translateGo t (some c')).1.value := by
  induction t with
  | StringType => intro c c'; simp [translateGo]
  | IntType => intro c c'; simp [translateGo]
  | UnsignedIntType => intro c c'; simp [translateGo]
  | FloatType => intro c c'; simp [translateGo]
  | BoolType => intro c c'; simp [translateGo]
  | ByteType => intro c c'; simp [translateGo]
  | UserDefined x => intro c c'; simp [translateGo]
  | TimeType => intro c c'; simp [translateGo]
  | TimestampMillisecondsType => intro c c'; simp [translateGo]
  | TimestampSecondsType => intro c c'; simp [translateGo]
  | InterfaceType =>
      intro c c'
      simp only [translateGo, translateGo.interfaceTranslation]
      refine ⟨trivial, ?_, ?_, ?_⟩
      · exact iff_of_false (append_ne "T" _ "String" (by decide) (by decide))
          (append_ne "T" _ "String" (by decide) (by decide))
      · exact iff_of_false (append_ne "T" _ "u8" (by decide) (by decide))
          (append_ne "T" _ "u8" (by decide) (by decide))
      · rw [hashmapMatch_prefixed 'T' "T" _ rfl (by decide),
          hashmapMatch_prefixed 'T' "T" _ rfl (by decide)]
  | JsonRawType =>
      intro c c'
      simp only [translateGo, translateGo.interfaceTranslation]
      refine ⟨trivial, ?_, ?_, ?_⟩
      · exact iff_of_false (append_ne "T" _ "String" (by decide) (by decide))
          (append_ne "T" _ "String" (by decide) (by decide))
      · exact iff_of_false (append_ne "T" _ "u8" (by decide) (by decide))
          (append_ne "T" _ "u8" (by decide) (by decide))
      · rw [hashmapMatch_prefixed 'T' "T" _ rfl (by decide),
          hashmapMatch_prefixed 'T' "T" _ rfl (by decide)]
  | ArrayType x ih =>
      intro c c'
      obtain ⟨hlib, hstr, hu8, hhm⟩ := ih c c'
      simp only [translateGo]
      by_cases hu : (translateGo x (some c)).1.value = "u8"
      · have hu' : (translateGo x (some c')).1.value = "u8" := hu8.mp hu
        rw [if_pos hu, if_pos hu']
        exact ⟨by rw [hlib], Iff.rfl, Iff.rfl, rfl⟩
      · have hun : ¬(translateGo x (some c')).1.value = "u8" := fun h => hu (hu8.mpr h)
        rw [if_neg hu, if_neg hun]
        refine ⟨hlib, ?_, ?_, ?_⟩
        · exact iff_of_false (append_ne "Vec<" _ "String" (by decide) (by decide))
            (append_ne "Vec<" _ "String" (by decide) (by decide))
        · exact iff_of_false (append_ne "Vec<" _ "u8" (by decide) (by decide))
            (append_ne "Vec<" _ "u8" (by decide) (by decide))
        · rw [hashmapMatch_prefixed 'V' "Vec<" _ rfl (by decide),
            hashmapMatch_prefixed 'V' "Vec<" _ rfl (by decide)]
  | PointerType v ih =>
      intro c c'
      obtain ⟨hlib, _, _, _⟩ := ih c c'
      simp only [translateGo]
      refine ⟨hlib, ?_, ?_, ?_⟩
      · exact iff_of_false (append_ne "Option<" _ "String" (by decide) (by decide))
          (append_ne "Option<" _ "String" (by decide) (by decide))
      · exact iff_of_false (append_ne "Option<" _ "u8" (by decide) (by decide))
          (append_ne "Option<" _ "u8" (by decide) (by decide))
      · rw [hashmapMatch_prefixed 'O' "Option<" _ rfl (by decide),
          hashmapMatch_prefixed 'O' "Option<" _ rfl (by decide)]
  | MapType k v ihk ihv =>
      intro c c'
      obtain ⟨hklib, _, _, _⟩ := ihk c c'
      obtain ⟨hvlib, _, _, _⟩ := ihv (c + ((translateGo k (some c)).1.generics).length)
        (c' + ((translateGo k (some c')).1.generics).length)
      simp only [translateGo, Option.getD_some]
      rw [translate_counter_some k c, translate_counter_some k c']
      refine ⟨?_, ?_, ?_, ?_⟩
      · rw [hklib, hvlib]
      · exact iff_of_false (append_ne "HashMap<" _ "String" (by decide) (by decide))
          (append_ne "HashMap<" _ "String" (by decide) (by decide))
      · exact iff_of_false (append_ne "HashMap<" _ "u8" (by decide) (by decide))
          (append_ne "HashMap<" _ "u8" (by decide) (by decide))
      · rw [hashmapMatch_map_value, hashmapMatch_map_value]

/-! ### Field-level lemmas -/

theorem processField_libraries_eq (f : FieldDef) (c : Nat) :
    (processField f c).libraries =
      (if rustTypeOf f c = "String" ∨ hashmapMatch (rustTypeOf f c) = true then
        insert "custom_serde::*" (translateGo f.go_type (some c)).1.libraries
      else (translateGo f.go_type (some c)).1.libraries) := by
  simp only [processField, rustTypeOf]
  split_ifs with h1 h2 h3 h4 h5 <;> first | rfl | tauto

theorem rustTypeOf_conditions (f : FieldDef) (c c' : Nat) :
    (rustTypeOf f c = "String" ↔ rustTypeOf f c' = "String") ∧
    hashmapMatch (rustTypeOf f c) = hashmapMatch (rustTypeOf f c') := by
  obtain ⟨hlib, hstr, hu8, hhm⟩ := translate_parts f.go_type c c'
  unfold rustTypeOf
  by_cases hw : (f.omit_empty && !hashmapMatch (translateGo f.go_type (some c)).1.value) = true
  · have hw' : (f.omit_empty && !hashmapMatch (translateGo f.go_type (some c')).1.value) = true := by
      rw [← hhm]; exact hw
    rw [if_pos hw, if_pos hw']
    constructor
    · exact iff_of_false (append_ne "Option<" _ "String" (by decide) (by decide))
        (append_ne "Option<" _ "String" (by decide) (by decide))
    · rw [hashmapMatch_prefixed 'O' "Option<" _ rfl (by decide),
        hashmapMatch_prefixed 'O' "Option<" _ rfl (by decide)]
  · have hw' : ¬(f.omit_empty && !hashmapMatch (translateGo f.go_type (some c')).1.value) = true := by
      rw [← hhm]; exact hw
    rw [if_neg hw, if_neg hw']
    exact ⟨hstr, hhm⟩

theorem processField_libraries_indep (f : FieldDef) (c c' : Nat) :
    (processField f c).libraries = (processField f c').libraries := by
  obtain ⟨hlib, _, _, _⟩ := translate_parts f.go_type c c'
  obtain ⟨hcs, hcm⟩ := rustTypeOf_conditions f c c'
  rw [processField_libraries_eq f c, processField_libraries_eq f c']
  by_cases h : rustTypeOf f c = "String" ∨ hashmapMatch (rustTypeOf f c) = true
  · have h' : rustTypeOf f c' = "String" ∨ hashmapMatch (rustTypeOf f c') = true := by
      rcases h with h | h
      · exact Or.inl (hcs.mp h)
      · exact Or.inr (by rw [← hcm]; exact h)
    rw [if_pos h, if_pos h', hlib]
  · have h' : ¬(rustTypeOf f c' = "String" ∨ hashmapMatch (rustTypeOf f c') = true) := by
      intro hc
      apply h
      rcases hc with hc | hc
      · exact Or.inl (hcs.mpr hc)
      · exact Or.inr (by rw [hcm]; exact hc)
    rw [if_neg h, if_neg h', hlib]

theorem processFields_libraries_indep (fs : List FieldDef) : ∀ c c' : Nat,
    (processFields fs c).libraries = (processFields fs c').libraries := by
  induction fs with
  | nil => intro c c'; rfl
  | cons f fs ih =>
      intro c c'
      simp only [processFields]
      rw [processField_libraries_indep f c c',
        ih (processField f c).counter (processField f c').counter]

theorem processFields_libraries_perm {fs fs' : List FieldDef} (h : fs.Perm fs') :
    ∀ c c' : Nat, (processFields fs c).libraries = (processFields fs' c').libraries := by
  induction h with
  | nil => intro c c'; rfl
  | cons x h ih =>
      intro c c'
      simp only [processFields]
      rw [processField_libraries_indep x c c', ih _ _]
  | swap x y l =>
      intro c c'
      simp only [processFields]
      rw [processField_libraries_indep y c 0,
        processField_libraries_indep x (processField y c).counter 0,
        processFields_libraries_indep l _ 0,
        processField_libraries_indep x c' 0,
        processField_libraries_indep y (processField x c').counter 0,
        processFields_libraries_indep l
          (processField y (processField x c').counter).counter 0]
      exact Finset.union_left_comm _ _ _
  | trans h1 h2 ih1 ih2 =>
      intro c c'
      exact (ih1 c c).trans (ih2 c c')

theorem processField_generics (f : FieldDef) (c : Nat) :
    (processField f c).generics = (translateGo f.go_type (some c)).1.generics ∧
    (processField f c).counter = c + ((translateGo f.go_type (some c)).1.generics).length := by
  have hc : ((translateGo f.go_type (some c)).2).getD 0
      = c + ((translateGo f.go_type (some c)).1.generics).length := by
    rw [translate_counter_some]
    rfl
  simp only [processField]
  split_ifs <;> exact ⟨rfl, hc⟩

theorem processFields_generics (fs : List FieldDef) : ∀ c : Nat,
    (processFields fs c).counter = c + ((processFields fs c).generics).length ∧
    ((processFields fs c).generics).map (fun g => g.value) =
      (List.range ((processFields fs c).generics).length).map
        (fun i => "T" ++ natRepr (c + i + 1)) := by
  induction fs with
  | nil => intro c; simp [processFields]
  | cons f fs ih =>
      intro c
      obtain ⟨hfg, hfc⟩ := processField_generics f c
      have hfc' : (processField f c).counter
          = c + ((processField f c).generics).length := by rw [hfc, hfg]
      obtain ⟨ih1, ih2⟩ := ih (processField f c).counter
      simp only [processFields]
      constructor
      · rw [ih1, hfc']
        simp only [List.length_append]
        omega
      · rw [List.map_append, List.length_append]
        rw [hfg, (translate_generics f.go_type c).2, ← hfg]
        rw [ih2, hfc']
        rw [List.range_add ((processField f c).generics).length
          ((processFields fs (c + ((processField f c).generics).length)).generics).length]
        rw [List.map_append, List.map_map]
        congr 1
        apply List.map_congr_left
        intro i _
        simp only [Function.comp_apply]
        congr 2
        omega

/-! ### More helpers: position-based string disequality, annotation shape -/

theorem append_ne_at (p s t : String) (n : Nat) (hn : n < p.data.length)
    (h : p.data[n]? ≠ t.data[n]?) : p ++ s ≠ t := by
  intro he
  apply h
  have hd := congrArg String.data he
  rw [String.data_append] at hd
  rw [← hd, List.getElem?_append_left hn]

theorem renameAnn_ne_deser_string (r : String) :
    renameAnn r ≠ "#[serde(deserialize_with = \"deserialize_lambda_string\")]" :=
  append_ne_at "#[serde(rename = \"" (r ++ "\")]") _ 8 (by decide) (by decide)

theorem processField_annotations (f : FieldDef) (c : Nat) :
    (processField f c).emitted.annotations =
      overrideAnnotations f c ++ ((translateGo f.go_type (some c)).1.annotations
        ++ (renameAnnotations f ++ flattenAnnotations f)) := by
  simp only [processField, overrideAnnotations, rustTypeOf]
  split_ifs <;> simp [List.append_assoc]

theorem processField_ty (f : FieldDef) (c : Nat) :
    (processField f c).emitted.ty =
      (if rustTypeOf f c = "String" then "Option<String>" else rustTypeOf f c) := by
  simp only [processField, rustTypeOf]
  split_ifs <;> rfl

theorem natRepr_one : natRepr 1 = "1" := by
  unfold natRepr
  rw [if_neg (by norm_num)]
  rw [Nat.digits_def' (by norm_num : (1 : ℕ) < 10) (by norm_num)]
  norm_num
  rfl

/-! ### Claim theorems -/

/-- Claim C10: the keyword-escaping function `mangle` rewrites exactly
the two reserved words `ref` (to `ref_`) and `type` (to `type_`) and
returns every other identifier unchanged. -/
theorem claim_C10_theorem :
    mangle "ref" = "ref_" ∧ mangle "type" = "type_" ∧
    ∀ s : String, s ≠ "ref" → s ≠ "type" → mangle s = s := by
  refine ⟨rfl, rfl, ?_⟩
  intro s h1 h2
  unfold mangle
  split
  · exact absurd rfl h1
  · exact absurd rfl h2
  · rfl

/-- Witness for C10 at the reserved word `match`, which is a reserved
word of the target dialect but passes through unescaped. -/
theorem claim_C10_witness :
    ("match" : String) ≠ "ref" ∧ ("match" : String) ≠ "type" ∧ mangle "match" = "match" :=
  ⟨by decide, by decide, claim_C10_theorem.2.2 "match" (by decide) (by decide)⟩

/-- Claim C4: translating `Array(Byte)` yields the base64-codec scalar
`Base64Data` with exactly the one `Base64Data` import, and translating
`Array(Array(Byte))` yields `Vec<Base64Data>` (the collapse applies at
exactly one nesting level), with any counter state. -/
theorem claim_C4_theorem (c : Option Nat) :
    (translateGo (.ArrayType .ByteType) c).1.value = "Base64Data" ∧
    (translateGo (.ArrayType .ByteType) c).1.libraries
      = {"super::super::encodings::Base64Data"} ∧
    (translateGo (.ArrayType .ByteType) c).1.generics = [] ∧
    (translateGo (.ArrayType (.ArrayType .ByteType)) c).1.value = "Vec<Base64Data>" ∧
    (translateGo (.ArrayType (.ArrayType .ByteType)) c).1.libraries
      = {"super::super::encodings::Base64Data"} := by
  exact ⟨rfl, rfl, rfl, rfl, rfl⟩

/-- Claim C2 (amended): with no generic counter in scope, a bare
DynamicAny/RawDynamic renders as the concrete `Value` type with no
generic-parameter specs, and the same holds for a DynamicAny nested
under an Array (the absent counter is passed through); but under a Map
the key and the value are always translated against a locally-created
counter starting at 0, so a DynamicAny nested inside a Map receives the
placeholder `T1` and the result carries one generic-parameter spec even
in the counterless context (while the outer counter stays absent). -/
theorem claim_C2_theorem :
    (translateGo .InterfaceType none).1.value = "Value" ∧
    (translateGo .InterfaceType none).1.generics = [] ∧
    (translateGo .InterfaceType none).2 = none ∧
    (translateGo .JsonRawType none).1.value = "Value" ∧
    (translateGo .JsonRawType none).1.generics = [] ∧
    (translateGo (.ArrayType .InterfaceType) none).1.value = "Vec<Value>" ∧
    (translateGo (.ArrayType .InterfaceType) none).1.generics = [] ∧
    (translateGo (.MapType .StringType .InterfaceType) none).1.value = "HashMap<String, T1>" ∧
    ((translateGo (.MapType .StringType .InterfaceType) none).1.generics).map (fun g => g.value)
      = ["T1"] ∧
    (translateGo (.MapType .StringType .InterfaceType) none).2 = none := by
  refine ⟨rfl, rfl, rfl, rfl, rfl, rfl, rfl, ?_, ?_, rfl⟩
  · simp [translateGo, translateGo.interfaceTranslation, make_rust_type_with_no_libraries,
      natRepr_one, show ("T" ++ "1" : String) = "T1" from rfl,
      show ("HashMap<" ++ ("String" ++ (", " ++ ("T1" ++ ">"))) : String)
        = "HashMap<String, T1>" from rfl]
  · simp [translateGo, translateGo.interfaceTranslation, make_rust_type_with_no_libraries,
      natRepr_one, show ("T" ++ "1" : String) = "T1" from rfl]

/-- Counterexample to claim C2 as stated: a DynamicAny nested inside a
Map in a counterless context does not render as the concrete `Value`
type with no generic specs; the Map translation creates a local counter,
so the result carries the placeholder spec `T1`. -/
theorem claim_C2_counterexample :
    ((translateGo (.MapType .StringType .InterfaceType) none).1.generics).map (fun g => g.value)
      = ["T1"] ∧
    (translateGo (.MapType .StringType .InterfaceType) none).1.generics ≠ [] := by
  constructor
  · simp [translateGo, translateGo.interfaceTranslation, make_rust_type_with_no_libraries,
      natRepr_one, show ("T" ++ "1" : String) = "T1" from rfl]
  · simp [translateGo, translateGo.interfaceTranslation]

/-- Any unrecognized primitive spelling makes `parse_go_type_primitive`
abort with its fixed panic message. -/
theorem parse_go_type_primitive_unrecognized (s : String) (hs : s ∉ recognizedPrimitives) :
    parse_go_type_primitive s = .error "missing go type primitive" := by
  unfold parse_go_type_primitive
  split_ifs with h h h h h h <;>
    first
      | rfl
      | exact absurd (by simp only [recognizedPrimitives, List.mem_cons]; tauto) hs

/-- Claim C8 (amended): translation aborts with no result on every
unrecognized primitive spelling, every package-qualified identifier
other than the two recognized ones, and every non-primitive map key;
in each case the diagnostic is a fixed message (`missing go type
primitive` / `missing go package ident mapping`) that does not name
the offending input text. -/
theorem claim_C8_theorem :
    (∀ s : String, s ∉ recognizedPrimitives →
      parse_go_type_primitive s = .error "missing go type primitive") ∧
    (∀ s : String, s ≠ "time.Time" → s ≠ "json.RawMessage" →
      parse_go_package_ident s = .error "missing go package ident mapping") ∧
    (∀ (s : String) (v : Except String GoType), s ∉ recognizedPrimitives →
      parse_go_type_map s v = .error "missing go type primitive") := by
  refine ⟨parse_go_type_primitive_unrecognized, ?_, ?_⟩
  · intro s hA hB
    unfold parse_go_package_ident
    rw [if_neg hA, if_neg hB]
  · intro s v hs
    unfold parse_go_type_map
    rw [parse_go_type_primitive_unrecognized s hs]
    rfl

/-- Witness for C8 at the concrete unsupported inputs `zzz`, `foo.Bar`
and the non-primitive map key `NotAPrimitive`. -/
theorem claim_C8_witness :
    ("zzz" : String) ∉ recognizedPrimitives ∧
    parse_go_type_primitive "zzz" = .error "missing go type primitive" ∧
    ("foo.Bar" : String) ≠ "time.Time" ∧
    ("foo.Bar" : String) ≠ "json.RawMessage" ∧
    parse_go_package_ident "foo.Bar" = .error "missing go package ident mapping" ∧
    parse_go_type_map "NotAPrimitive" (.ok .IntType) = .error "missing go type primitive" :=
  ⟨by decide, claim_C8_theorem.1 "zzz" (by decide), by decide, by decide,
    claim_C8_theorem.2.1 "foo.Bar" (by decide) (by decide),
    claim_C8_theorem.2.2 "NotAPrimitive" (.ok .IntType) (by decide)⟩

/-- Counterexample to claim C8 as stated: the diagnostic for the
unsupported primitive `zzz` is the fixed text `missing go type
primitive`, which does not contain the offending input text. -/
theorem claim_C8_counterexample :
    parse_go_type_primitive "zzz" = .error "missing go type primitive" ∧
    strContains "missing go type primitive" "zzz" = false := by
  exact ⟨rfl, rfl⟩

/-- Claim C5: across one struct translation (the counter starts at 0
for every struct), the generic placeholder names collected from all
fields are exactly `T1, T2, ...` in order — sequential from the first
index and pairwise distinct.  Allocation under a Map continues the
same numbering from key side to value side, since the struct-level
list is exactly the range-indexed sequence. -/
theorem claim_C5_theorem (fs : List FieldDef) :
    structGenericNames fs =
      (List.range (structGenericNames fs).length).map (fun i => "T" ++ natRepr (i + 1)) ∧
    (structGenericNames fs).Nodup := by
  have h := (processFields_generics fs 0).2
  constructor
  · unfold structGenericNames structGenerics
    rw [h]
    simp [List.length_map, List.length_range, Nat.zero_add]
  · unfold structGenericNames structGenerics
    rw [h]
    refine List.Nodup.map ?_ (List.nodup_range _)
    intro a b hab
    have h1 := append_left_cancel_str "T" _ _ hab
    have h2 := natRepr_inj h1
    omega

/-- Claim C9: for any struct, the rendered import list is sorted and
free of duplicates, and it is unchanged under any permutation of the
struct's field declaration order. -/
theorem claim_C9_theorem (fs fs' : List FieldDef) (h : fs.Perm fs') :
    renderImports (structLibraries fs) = renderImports (structLibraries fs') ∧
    List.Sorted (· ≤ ·) (renderImports (structLibraries fs)) ∧
    (renderImports (structLibraries fs)).Nodup := by
  refine ⟨?_, ?_, ?_⟩
  · unfold renderImports structLibraries
    rw [processFields_libraries_perm h 0 0]
  · exact Finset.sort_sorted _ _
  · exact Finset.sort_nodup _ _

/-- Witness for C9 at a concrete two-field struct and its swap. -/
theorem claim_C9_witness :
    ([mkFieldDef "a" none [] false false .StringType,
      mkFieldDef "b" none [] false false .TimeType].Perm
      [mkFieldDef "b" none [] false false .TimeType,
        mkFieldDef "a" none [] false false .StringType]) ∧
    (renderImports (structLibraries
        [mkFieldDef "a" none [] false false .StringType,
          mkFieldDef "b" none [] false false .TimeType])
      = renderImports (structLibraries
        [mkFieldDef "b" none [] false false .TimeType,
          mkFieldDef "a" none [] false false .StringType]) ∧
    List.Sorted (· ≤ ·) (renderImports (structLibraries
        [mkFieldDef "a" none [] false false .StringType,
          mkFieldDef "b" none [] false false .TimeType])) ∧
    (renderImports (structLibraries
        [mkFieldDef "a" none [] false false .StringType,
          mkFieldDef "b" none [] false false .TimeType])).Nodup) :=
  ⟨List.Perm.swap _ _ _, claim_C9_theorem _ _ (List.Perm.swap _ _ _)⟩

/-- Claim C3: the final omit-capability flag of a parsed field is the
tag's omit-if-empty flag OR the field's pointer qualifier, and a field
whose rendered type matches the keyed-collection pattern is never
Option-wrapped by that flag, instead carrying the
`deserialize_lambda_map` + `default` decode override. -/
theorem claim_C3_theorem :
    (∀ (name : String) (json : Option JsonMapping) (comments : List String)
      (is_pointer embedded : Bool) (t : GoType),
      (mkFieldDef name json comments is_pointer embedded t).omit_empty
        = ((json.map (fun j => j.omit_empty)).getD false || is_pointer)) ∧
    (∀ (f : FieldDef) (c : Nat),
      hashmapMatch (translateGo f.go_type (some c)).1.value = true →
      (processField f c).emitted.ty = (translateGo f.go_type (some c)).1.value ∧
      "#[serde(deserialize_with = \"deserialize_lambda_map\")]"
        ∈ (processField f c).emitted.annotations ∧
      "#[serde(default)]" ∈ (processField f c).emitted.annotations) := by
  constructor
  · intro name json comments p e t
    cases json <;> rfl
  · intro f c hm
    have hrt : rustTypeOf f c = (translateGo f.go_type (some c)).1.value := by
      simp [rustTypeOf, hm]
    have hne : rustTypeOf f c ≠ "String" := by
      rw [hrt]
      intro he
      rw [he] at hm
      exact absurd hm (by decide)
    have hov : overrideAnnotations f c = deserMapAnns := by
      unfold overrideAnnotations
      rw [if_neg hne, if_pos (by rw [hrt]; exact hm)]
    refine ⟨?_, ?_, ?_⟩
    · rw [processField_ty, if_neg hne, hrt]
    · rw [processField_annotations, hov]
      simp [deserMapAnns]
    · rw [processField_annotations, hov]
      simp [deserMapAnns]

/-- Witness for C3 at a concrete omit-tagged map field. -/
theorem claim_C3_witness :
    (mkFieldDef "m" (some ⟨"m", none, true⟩) [] false false
        (.MapType .StringType .IntType)).omit_empty
      = (((some (⟨"m", none, true⟩ : JsonMapping)).map (fun j => j.omit_empty)).getD false
        || false) ∧
    hashmapMatch (translateGo (mkFieldDef "m" (some ⟨"m", none, true⟩) [] false false
        (.MapType .StringType .IntType)).go_type (some 0)).1.value = true ∧
    (processField (mkFieldDef "m" (some ⟨"m", none, true⟩) [] false false
        (.MapType .StringType .IntType)) 0).emitted.ty
      = (translateGo (mkFieldDef "m" (some ⟨"m", none, true⟩) [] false false
        (.MapType .StringType .IntType)).go_type (some 0)).1.value ∧
    "#[serde(deserialize_with = \"deserialize_lambda_map\")]"
      ∈ (processField (mkFieldDef "m" (some ⟨"m", none, true⟩) [] false false
        (.MapType .StringType .IntType)) 0).emitted.annotations ∧
    "#[serde(default)]"
      ∈ (processField (mkFieldDef "m" (some ⟨"m", none, true⟩) [] false false
        (.MapType .StringType .IntType)) 0).emitted.annotations :=
  ⟨claim_C3_theorem.1 "m" (some ⟨"m", none, true⟩) [] false false (.MapType .StringType .IntType),
    by decide,
    (claim_C3_theorem.2 _ 0 (by decide)).1,
    (claim_C3_theorem.2 _ 0 (by decide)).2.1,
    (claim_C3_theorem.2 _ 0 (by decide)).2.2⟩

/-- The rename annotations of a field with a serialized name. -/
theorem renameAnnotations_some (f : FieldDef) (r : String) (hj : f.json_name = some r) :
    renameAnnotations f
      = if r ≠ mangle (toSnakeCase f.name) then [renameAnn r] else [] := by
  unfold renameAnnotations
  rw [hj]

/-- The rename annotations of a field without a serialized name. -/
theorem renameAnnotations_none (f : FieldDef) (hj : f.json_name = none) :
    renameAnnotations f = [] := by
  unfold renameAnnotations
  rw [hj]

/-- Claim C1 (amended): a field whose source type is the plain string
scalar is always emitted with rendered type `Option<String>`, but the
null-coalescing decode annotations are attached exactly when the
field's final omit flag (tag omit-flag OR pointer flag) is false: the
override tests the rendered type after the Option-wrapping step, so an
omit-tagged or pointer string field is emitted as a plain
`Option<String>` without them. -/
theorem claim_C1_theorem (name : String) (json : Option JsonMapping)
    (comments : List String) (is_pointer embedded : Bool) (c : Nat) :
    (processField (mkFieldDef name json comments is_pointer embedded .StringType) c).emitted.ty
      = "Option<String>" ∧
    ("#[serde(deserialize_with = \"deserialize_lambda_string\")]"
        ∈ (processField (mkFieldDef name json comments is_pointer embedded .StringType)
            c).emitted.annotations
      ↔ ((json.map (fun j => j.omit_empty)).getD false || is_pointer) = false) := by
  have hgo : (mkFieldDef name json comments is_pointer embedded .StringType).go_type
      = .StringType := rfl
  have homit : (mkFieldDef name json comments is_pointer embedded .StringType).omit_empty
      = ((json.map (fun j => j.omit_empty)).getD false || is_pointer) := by
    cases json <;> rfl
  set f := mkFieldDef name json comments is_pointer embedded .StringType with hf
  have hval : (translateGo f.go_type (some c)).1.value = "String" := by rw [hgo]; rfl
  have htr : (translateGo f.go_type (some c)).1.annotations = [] := by rw [hgo]; rfl
  by_cases ho : f.omit_empty = true
  · have hrt : rustTypeOf f c = "Option<String>" := by
      simp [rustTypeOf, hval, ho, show hashmapMatch "String" = false from rfl,
        show ("Option<" ++ ("String" ++ ">") : String) = "Option<String>" from rfl]
    have hov : overrideAnnotations f c = [] := by
      simp only [overrideAnnotations, hrt]
      rfl
    constructor
    · rw [processField_ty, hrt]
      rfl
    · rw [processField_annotations, hov, htr]
      constructor
      · intro hmem
        exfalso
        simp only [List.nil_append] at hmem
        rcases List.mem_append.mp hmem with hmr | hmf
        · cases hj : f.json_name with
          | none => rw [renameAnnotations_none f hj] at hmr; simp at hmr
          | some r =>
              rw [renameAnnotations_some f r hj] at hmr
              by_cases hrr : r ≠ mangle (toSnakeCase f.name)
              · rw [if_pos hrr] at hmr
                simp only [List.mem_singleton] at hmr
                exact renameAnn_ne_deser_string r hmr.symm
              · rw [if_neg hrr] at hmr
                simp at hmr
        · unfold flattenAnnotations at hmf
          by_cases hee : f.embedded = true
          · rw [if_pos hee] at hmf
            simp only [List.mem_singleton] at hmf
            exact absurd hmf (by decide)
          · rw [if_neg hee] at hmf
            simp at hmf
      · intro hfalse
        rw [← homit] at hfalse
        rw [ho] at hfalse
        exact absurd hfalse (by decide)
  · have ho' : f.omit_empty = false := by
      cases hb : f.omit_empty
      · rfl
      · exact absurd hb ho
    have hrt : rustTypeOf f c = "String" := by
      simp [rustTypeOf, hval, ho']
    have hov : overrideAnnotations f c = deserStringAnns := by
      simp only [overrideAnnotations, hrt]
      rfl
    constructor
    · rw [processField_ty, hrt]
      rfl
    · rw [processField_annotations, hov]
      constructor
      · intro _
        rw [← homit, ho']
      · intro _
        simp [deserStringAnns]

/-- Counterexample to claim C1 as stated: a string field whose tag
carries the omit flag is emitted as `Option<String>` without the
null-coalescing decode annotation. -/
theorem claim_C1_counterexample :
    "#[serde(deserialize_with = \"deserialize_lambda_string\")]"
      ∉ (processField (mkFieldDef "foo" (some ⟨"foo", none, true⟩) [] false false .StringType)
          0).emitted.annotations ∧
    (processField (mkFieldDef "foo" (some ⟨"foo", none, true⟩) [] false false .StringType)
        0).emitted.ty = "Option<String>" := by
  exact ⟨by decide, by decide⟩

/-- Claim C6 (amended): the annotation list attached to an emitted
field is ordered with the hard-coded override annotations first, then
the translator-provided annotations, and the rename / flatten
annotations last — the reverse of the order stated in the claim
(the overrides set the field's annotation list and the accumulated
translator / rename / flatten annotations are appended after it). -/
theorem claim_C6_theorem (f : FieldDef) (c : Nat) :
    (processField f c).emitted.annotations =
      overrideAnnotations f c ++ ((translateGo f.go_type (some c)).1.annotations
        ++ (renameAnnotations f ++ flattenAnnotations f)) :=
  processField_annotations f c

/-- Counterexample to claim C6 as stated: for a plain string field with
a differing serialized name the emitted annotation order is override
annotations first and the rename last, not rename first. -/
theorem claim_C6_counterexample :
    (processField (mkFieldDef "Foo" (some ⟨"Foo", none, false⟩) [] false false .StringType)
        0).emitted.annotations
      = ["#[serde(deserialize_with = \"deserialize_lambda_string\")]", "#[serde(default)]",
          "#[serde(rename = \"Foo\")]"] ∧
    (processField (mkFieldDef "Foo" (some ⟨"Foo", none, false⟩) [] false false .StringType)
        0).emitted.annotations
      ≠ ["#[serde(rename = \"Foo\")]",
          "#[serde(deserialize_with = \"deserialize_lambda_string\")]", "#[serde(default)]"] := by
  exact ⟨by decide, by decide⟩

/-- Claim C7 (amended): an embedded/anonymous field always receives the
flatten annotation, and — contrary to the claim — a rename annotation
is additionally attached whenever the field carries a serialized-name
tag that differs from the rewritten identifier (the rename push does
not test the embedded flag). -/
theorem claim_C7_theorem (f : FieldDef) (c : Nat) (he : f.embedded = true) :
    "#[serde(flatten)]" ∈ (processField f c).emitted.annotations ∧
    (∀ r : String, f.json_name = some r → r ≠ mangle (toSnakeCase f.name) →
      renameAnn r ∈ (processField f c).emitted.annotations) := by
  constructor
  · rw [processField_annotations]
    simp [flattenAnnotations, he]
  · intro r hr hne
    rw [processField_annotations]
    simp [renameAnnotations, hr, hne]

/-- Witness for C7 at a concrete embedded field with a differing tag. -/
theorem claim_C7_witness :
    (mkFieldDef "Foo" (some ⟨"Foo", none, false⟩) [] false true (.UserDefined "Foo")).embedded
      = true ∧
    "#[serde(flatten)]" ∈ (processField
      (mkFieldDef "Foo" (some ⟨"Foo", none, false⟩) [] false true (.UserDefined "Foo"))
        0).emitted.annotations ∧
    (mkFieldDef "Foo" (some ⟨"Foo", none, false⟩) [] false true
        (.UserDefined "Foo")).json_name = some "Foo" ∧
    ("Foo" : String) ≠ mangle (toSnakeCase
      (mkFieldDef "Foo" (some ⟨"Foo", none, false⟩) [] false true (.UserDefined "Foo")).name) ∧
    renameAnn "Foo" ∈ (processField
      (mkFieldDef "Foo" (some ⟨"Foo", none, false⟩) [] false true (.UserDefined "Foo"))
        0).emitted.annotations :=
  ⟨rfl, (claim_C7_theorem _ 0 rfl).1, rfl, by decide,
    (claim_C7_theorem _ 0 rfl).2 "Foo" rfl (by decide)⟩

/-- Counterexample to claim C7 as stated: an embedded field carrying a
serialized-name tag that differs from the rewritten identifier is
emitted with a rename annotation in addition to the flatten
annotation. -/
theorem claim_C7_counterexample :
    (mkFieldDef "Foo" (some ⟨"Foo", none, false⟩) [] false true (.UserDefined "Foo")).embedded
      = true ∧
    "#[serde(rename = \"Foo\")]" ∈ (processField
      (mkFieldDef "Foo" (some ⟨"Foo", none, false⟩) [] false true (.UserDefined "Foo"))
        0).emitted.annotations ∧
    "#[serde(flatten)]" ∈ (processField
      (mkFieldDef "Foo" (some ⟨"Foo", none, false⟩) [] false true (.UserDefined "Foo"))
        0).emitted.annotations := by
  exact ⟨rfl, by decide, by decide⟩
